import Mathlib

/-!
# Verification of the `pdfmder` PDF → Markdown pipeline

A shallow embedding of the pure/deterministic parts of the `pdfmder`
repository (`src/pdfmder/llm_markdown.py`, `converter.py`,
`pdfium_extract.py`, `pdfium_images.py`) together with proofs of the
spec claims about them.

Text is modelled as `List Char` (Python `str`).  Paths and environment
values are modelled as `String`.  The language-model call is external;
the page converter used by the document pipeline is therefore a
parameter, and the deterministic pre-network phase of
`convert_to_markdown` (model-name resolution, credential gate, fallback)
is embedded as a function into an explicit outcome type.
-/

set_option maxRecDepth 8192

set_option linter.unusedVariables false

namespace Pdfmder

/-- Whitespace as recognised by Python `str.strip()` with no arguments,
restricted to the ASCII range (space, tab, newline, carriage return,
vertical tab, form feed).  The claims under study only depend on this
ASCII fragment. -/
def isPyWhitespace (c : Char) : Bool :=
  c = ' ' || c = '\t' || c = '\n' || c = '\r' || c = '\x0b' || c = '\x0c'

/-- Python `s.strip(chars)`: remove the characters satisfying `p` from both
ends of the string. -/
def stripChars (p : Char → Bool) (l : List Char) : List Char :=
  ((l.dropWhile p).reverse.dropWhile p).reverse

/-- Python `s.strip()` (no argument): strip whitespace from both ends. -/
def pyStrip (l : List Char) : List Char :=
  stripChars isPyWhitespace l

/-- Python `s.strip("\n")`: strip newline characters from both ends.
Used on each page before joining, in `converter.py`. -/
def stripNL (l : List Char) : List Char :=
  stripChars (fun c => c = '\n') l

/-- Length of the replacement for a maximal run of `k` consecutive
newlines under `re.sub(r"\n\x7b3,\x7d", "\n\n", s)`: runs of three or more
newlines become two, shorter runs are kept. -/
def nlLen (k : Nat) : Nat :=
  if 3 ≤ k then 2 else k

/-- The replacement emitted for a maximal run of `k` consecutive newlines. -/
def nlOut (k : Nat) : List Char :=
  List.replicate (nlLen k) '\n'

/-- Left-to-right scan implementing `re.sub(r"\n\x7b3,\x7d", "\n\n", s)`:
`k` counts the newlines of the current (still open) run; on a
non-newline character or at the end of the string the run is closed and
replaced by `nlOut k`. -/
def collapseAux : Nat → List Char → List Char
  | k, [] => nlOut k
  | k, c :: rest =>
    if c = '\n' then collapseAux (k + 1) rest
    else nlOut k ++ c :: collapseAux 0 rest

/-- `re.sub(r"\n\x7b3,\x7d", "\n\n", s)` from `fallback_markdown` in
`llm_markdown.py`: collapse every run of 3 or more consecutive newlines
to exactly 2. -/
def collapseNewlines (l : List Char) : List Char :=
  collapseAux 0 l

/-- `fallback_markdown` from `llm_markdown.py`:

    cleaned = text.strip()
    if not cleaned: return ""
    cleaned = re.sub(r"\n\x7b3,\x7d", "\n\n", cleaned)
    return cleaned + "\n"
-/
def fallback_markdown (text : List Char) : List Char :=
  let cleaned := pyStrip text
  if cleaned = [] then []
  else collapseNewlines cleaned ++ ['\n']

/-- Detector for a run of 3 or more consecutive newlines, used to state
spec properties: `k` counts the newlines of the current run; the check
fires when a maximal run (closed by a non-newline character or by the
end of the string) has length at least 3. -/
def hasRun3Aux : Nat → List Char → Bool
  | k, [] => decide (3 ≤ k)
  | k, c :: rest =>
    if c = '\n' then hasRun3Aux (k + 1) rest
    else decide (3 ≤ k) || hasRun3Aux 0 rest

/-- `hasRun3 l` holds iff `l` contains a run of 3 or more consecutive
newline characters. -/
def hasRun3 (l : List Char) : Bool :=
  hasRun3Aux 0 l

/-- Convert a string literal to the `List Char` text model. -/
def str (s : String) : List Char :=
  s.data

example : fallback_markdown (str "  hi\n\n\n\nthere ") = str "hi\n\nthere\n" := by decide

example : fallback_markdown (str "  \n\t ") = [] := by decide

example : hasRun3 (str "a\n\n\nb") = true ∧ hasRun3 (str "a\n\nb\n\nc") = false := by decide

/-! ## Environment and the credential gate of `convert_to_markdown` -/

/-- A process environment: ordered association list of variable/value pairs. -/
def Env : Type :=
  List (String × String)

/-- `os.getenv(key)` / `os.environ.get(key)`: value of the first binding of
`key`, or `none` when unset. -/
def getenv : Env → String → Option String
  | [], _ => none
  | (k, v) :: rest, key => if k = key then some v else getenv rest key

/-- `os.getenv(key, default)`. -/
def getenvD (env : Env) (key default_ : String) : String :=
  (getenv env key).getD default_

/-- Python truthiness of an `os.getenv` result: `None` and the empty
string are falsy, every other string is truthy. -/
def truthy : Option String → Bool
  | none => false
  | some s => !(s = "")

/-- `PageMetrics` from `llm_markdown.py`.  `duration_s` (a wall-clock
float in the code) is modelled as a rational supplied by the caller. -/
structure PageMetrics where
  model : String
  input_tokens : Option Nat
  output_tokens : Option Nat
  total_tokens : Option Nat
  duration_s : ℚ
  fallback : Bool
  deriving Repr, DecidableEq, Inhabited

/-- Model-name resolution at the top of `convert_to_markdown`:

    model_name = os.getenv("PDFMDER_MODEL", "gpt-5")
    strip "gateway/openai:" then "openai:" when present
    if os.getenv("AZURE_OPENAI_ENDPOINT"):
        model_name = os.getenv("AZURE_OPENAI_DEPLOYMENT", model_name)
-/
def resolveModelName (env : Env) : String :=
  let m0 := getenvD env "PDFMDER_MODEL" "gpt-5"
  let m1 := if m0.startsWith "gateway/openai:" then m0.drop "gateway/openai:".length else m0
  let m2 := if m1.startsWith "openai:" then m1.drop "openai:".length else m1
  if truthy (getenv env "AZURE_OPENAI_ENDPOINT") then
    getenvD env "AZURE_OPENAI_DEPLOYMENT" m2
  else m2

/-- `allow_fallback = os.getenv("PDFMDER_ALLOW_FALLBACK", "1") != "0"`. -/
def allowFallback (env : Env) : Bool :=
  !(getenvD env "PDFMDER_ALLOW_FALLBACK" "1" = "0")

/-- Whether the provider credential required by `convert_to_markdown`
is present (truthy): `AZURE_OPENAI_API_KEY` when `AZURE_OPENAI_ENDPOINT`
is set, else `OPENAI_API_KEY`. -/
def credentialsPresent (env : Env) : Bool :=
  if truthy (getenv env "AZURE_OPENAI_ENDPOINT") then
    truthy (getenv env "AZURE_OPENAI_API_KEY")
  else
    truthy (getenv env "OPENAI_API_KEY")

/-- Outcome of the deterministic pre-network phase of
`convert_to_markdown`: either a fallback return (warn, skip the model
call, return cleaned text plus fallback metrics), or a raised
`RuntimeError` — the spec taxonomy's `ConfigurationError` — or control
reaching the network call (`_make_agent` / `_run_agent_with_retry`),
whose result is external to this model. -/
inductive ConvertOutcome where
  | fallbackReturn (md : List Char) (metrics : PageMetrics)
  | raiseRuntimeError (msg : String)
  | networkCall (model_name : String)
  deriving Repr, DecidableEq

/-- The deterministic pre-network phase of `convert_to_markdown` from
`llm_markdown.py`: resolve the model name, read the fallback flag, and
run the two credential checks.  `elapsed` stands for
`perf_counter() - start_time` at the moment the fallback returns.
Only `curr_text` among the page arguments is consulted before the
network call. -/
def convert_to_markdown (env : Env) (elapsed : ℚ)
    (prev_text : Option (List Char)) (prev_image : Option String)
    (curr_text : List Char) (curr_image : String)
    (next_text : Option (List Char)) (next_image : Option String)
    (prev_markdown : Option (List Char)) : ConvertOutcome :=
  let model_name := resolveModelName env
  let allow_fallback := allowFallback env
  let fallbackMetrics : PageMetrics :=
    { model := model_name, input_tokens := none, output_tokens := none,
      total_tokens := none, duration_s := elapsed, fallback := true }
  if truthy (getenv env "AZURE_OPENAI_ENDPOINT")
      && !truthy (getenv env "AZURE_OPENAI_API_KEY") then
    if allow_fallback then
      .fallbackReturn (fallback_markdown curr_text) fallbackMetrics
    else
      .raiseRuntimeError "AZURE_OPENAI_API_KEY must be set when using Azure OpenAI."
  else if !truthy (getenv env "AZURE_OPENAI_ENDPOINT")
      && !truthy (getenv env "OPENAI_API_KEY") then
    if allow_fallback then
      .fallbackReturn (fallback_markdown curr_text) fallbackMetrics
    else
      .raiseRuntimeError "OPENAI_API_KEY must be set for OpenAI access."
  else
    .networkCall model_name

example :
    convert_to_markdown [] 0 none none (str "hello") "p.png" none none none
      = .fallbackReturn (str "hello\n")
          { model := "gpt-5", input_tokens := none, output_tokens := none,
            total_tokens := none, duration_s := 0, fallback := true } := by
  decide

example :
    convert_to_markdown [("PDFMDER_ALLOW_FALLBACK", "0")] 0 none none
        (str "hello") "p.png" none none none
      = .raiseRuntimeError "OPENAI_API_KEY must be set for OpenAI access." := by
  decide

example :
    convert_to_markdown [("OPENAI_API_KEY", "sk-x")] 0 none none
        (str "hello") "p.png" none none none
      = .networkCall "gpt-5" := by
  decide

/-! ## Asset extraction (`pdfium_images.py`, `pdfium_extract.py`) -/

/-- One page of an opened PDF document.  `text` is what
`page.get_textpage().get_text_range()` returns (empty for scanned pages);
the rendered bitmap is abstracted away, since only its output file path
is observable downstream. -/
structure PdfPage where
  text : List Char
  deriving Repr, DecidableEq, Inhabited

/-- An opened PDF document (`pdfium.PdfDocument`): its pages.
`page_count = len(pdf) = pages.length`. -/
structure PdfDocument where
  pages : List PdfPage
  deriving Repr, DecidableEq, Inhabited

/-- Python `f"\x7bn:04d\x7d"`: decimal, left-padded with zeros to width 4. -/
def pad4 (n : Nat) : String :=
  String.mk (List.replicate (4 - (toString n).length) '0') ++ toString n

/-- `tmp_dir / f"page-\x7bi + 1:04d\x7d.\x7bimage_format\x7d"` from
`render_pdf_pages_to_images_tmp`. -/
def pageImagePath (tmp_dir : String) (i : Nat) (image_format : String) : String :=
  tmp_dir ++ "/page-" ++ pad4 (i + 1) ++ "." ++ image_format

/-- `render_pdf_pages_to_images_tmp` from `pdfium_images.py`: render
each page `i` of the PDF to `tmp_dir/page-(i+1 zero-padded).png` and
return `(image_paths, pil_images, page_count)`.  The PIL images are
abstracted to `Unit` (one per page); `dpi` only scales the abstracted
bitmaps, so it does not appear in the observable result. -/
def render_pdf_pages_to_images_tmp (doc : PdfDocument) (tmp_dir : String)
    (image_format : String) : List String × List Unit × Nat :=
  let page_count := doc.pages.length
  ((List.range page_count).map (fun i => pageImagePath tmp_dir i image_format),
   doc.pages.map (fun _ => ()),
   page_count)

/-- `extract_pdf_assets` from `pdfium_extract.py`: render the pages,
extract each page's text, and check the two `assert` statements
`len(image_paths) == page_count` and `len(page_texts) == page_count`
(a firing assertion is modelled as `none`). -/
def extract_pdf_assets (doc : PdfDocument) (tmp_dir : String) :
    Option (List String × List (List Char) × Nat) :=
  let r := render_pdf_pages_to_images_tmp doc tmp_dir "png"
  let image_paths := r.1
  let page_count := r.2.2
  let page_texts := (List.range page_count).map (fun i => (doc.pages.getD i default).text)
  if image_paths.length = page_count then
    if page_texts.length = page_count then
      some (image_paths, page_texts, page_count)
    else none
  else none

/-- An asset-extraction scope together with the file-system states it
induces: `fsInside` is the set (list) of existing files while the scope
is open, `fsAfter` the set after it exits. -/
structure AssetScope where
  image_paths : List String
  page_texts : List (List Char)
  page_count : Nat
  fsInside : List String
  fsAfter : List String
  deriving Repr, DecidableEq

/-- Modelled from the spec: `extract_pdf_assets_tmp`, the scoped
asset-bundle context manager used by `converter.py` and the tests but
absent from the sources under `src/`.  Per the spec, `build(document,
dpi) -> scoped (image_paths, page_texts, page_count)`; the temporary
image files exist while inside the scope, and "all returned paths are
valid only until the scope closes, at which point the backing storage
is deleted and paths become dangling".  `fs0` is the set of files
existing before the scope opens; on exit the temporary directory's
contents are deleted on all paths. -/
def extract_pdf_assets_tmp (doc : PdfDocument) (tmp_dir : String)
    (fs0 : List String) : Option AssetScope :=
  match extract_pdf_assets doc tmp_dir with
  | none => none
  | some (ips, pts, n) =>
      some { image_paths := ips, page_texts := pts, page_count := n,
             fsInside := fs0 ++ ips,
             fsAfter := (fs0 ++ ips).filter (fun p => !(ips.contains p)) }

/-! ## The document pipeline (`converter.py`) -/

/-- The keyword arguments of one `convert_to_markdown` call. -/
structure ConvertArgs where
  prev_text : Option (List Char)
  prev_image : Option String
  curr_text : List Char
  curr_image : String
  next_text : Option (List Char)
  next_image : Option String
  prev_markdown : Option (List Char)
  deriving Repr, DecidableEq, Inhabited

/-- The context window built for page `i` in the loop of
`convert_pdf_to_markdown`:

    prev_text  = page_texts[i - 1]  if i > 0 else None
    prev_image = image_paths[i - 1] if i > 0 else None
    curr_text  = page_texts[i]
    curr_image = image_paths[i]
    next_text  = page_texts[i + 1]  if i + 1 < page_count else None
    next_image = image_paths[i + 1] if i + 1 < page_count else None
    prev_markdown = prev_md
-/
def mkArgs (image_paths : List String) (page_texts : List (List Char))
    (page_count i : Nat) (prev_md : Option (List Char)) : ConvertArgs :=
  { prev_text := if 0 < i then some (page_texts.getD (i - 1) []) else none,
    prev_image := if 0 < i then some (image_paths.getD (i - 1) "") else none,
    curr_text := page_texts.getD i [],
    curr_image := image_paths.getD i "",
    next_text := if i + 1 < page_count then some (page_texts.getD (i + 1) []) else none,
    next_image := if i + 1 < page_count then some (image_paths.getD (i + 1) "") else none,
    prev_markdown := prev_md }

/-- The `for i in range(page_count)` loop of `convert_pdf_to_markdown`,
parameterised by the page converter `conv` (the LLM-backed
`convert_to_markdown`, external to this model).  `fuel` is the number
of remaining iterations, `i` the current page index, `prev_md` the
Markdown produced for page `i - 1` (`None` initially).  Returns
`(md_pages, page_metrics)` accumulated in page order. -/
def pipelineAux (conv : ConvertArgs → List Char × PageMetrics)
    (image_paths : List String) (page_texts : List (List Char)) (page_count : Nat) :
    Nat → Nat → Option (List Char) → List (List Char) × List PageMetrics
  | 0, _, _ => ([], [])
  | fuel + 1, i, prev_md =>
    let r := conv (mkArgs image_paths page_texts page_count i prev_md)
    let rest := pipelineAux conv image_paths page_texts page_count fuel (i + 1) (some r.1)
    (r.1 :: rest.1, r.2 :: rest.2)

/-- The page separator `"\n\n---\n\n"`. -/
def pageSep : List Char :=
  str "\n\n---\n\n"

/-- The final join of `convert_pdf_to_markdown`:
`"\n\n---\n\n".join(p.strip("\n") for p in md_pages).strip() + "\n"`. -/
def joinPages (md_pages : List (List Char)) : List Char :=
  pyStrip (List.intercalate pageSep (md_pages.map stripNL)) ++ ['\n']

/-- `convert_pdf_to_markdown` from `converter.py`, given the asset
bundle `(image_paths, page_texts, page_count)` delivered by the
asset-extraction scope and the page converter `conv`: run the page
loop, then join the per-page Markdown. -/
def convert_pdf_to_markdown (conv : ConvertArgs → List Char × PageMetrics)
    (image_paths : List String) (page_texts : List (List Char)) (page_count : Nat) :
    List Char × List PageMetrics :=
  let r := pipelineAux conv image_paths page_texts page_count page_count 0 none
  (joinPages r.1, r.2)

/-- The page converter in the deterministic fallback regime (no
provider credentials in the environment, fallback enabled): by the
behaviour of `convert_to_markdown`, page `i` yields
`fallback_markdown(curr_text)` and fallback metrics. -/
def fallbackConv (env : Env) (elapsed : ℚ) (a : ConvertArgs) : List Char × PageMetrics :=
  (fallback_markdown a.curr_text,
   { model := resolveModelName env, input_tokens := none, output_tokens := none,
     total_tokens := none, duration_s := elapsed, fallback := true })

example :
    (convert_pdf_to_markdown (fallbackConv [] 0) ["t/page-0001.png", "t/page-0002.png"]
        [str "a", str "b"] 2).1 = str "a\n\n---\n\nb\n" := by
  decide

example :
    extract_pdf_assets ⟨[⟨str "a"⟩, ⟨str "b"⟩]⟩ "tmp"
      = some (["tmp/page-0001.png", "tmp/page-0002.png"], [str "a", str "b"], 2) := by
  decide

/-! ## Lemmas about stripping -/

theorem head?_dropWhile_ne (p : Char → Bool) :
    ∀ (l : List Char) (a : Char), (l.dropWhile p).head? = some a → p a = false := by
  intro l
  induction l with
  | nil => intro a h; simp at h
  | cons c t ih =>
    intro a h
    by_cases hc : p c
    · rw [List.dropWhile_cons, if_pos hc] at h
      exact ih a h
    · rw [List.dropWhile_cons, if_neg hc] at h
      simp only [List.head?_cons, Option.some.injEq] at h
      subst h
      exact Bool.eq_false_iff.mpr hc

theorem getLast?_dropWhile (p : Char → Bool) :
    ∀ l : List Char, l.dropWhile p ≠ [] → (l.dropWhile p).getLast? = l.getLast? := by
  intro l
  induction l with
  | nil => intro h; simp at h
  | cons c t ih =>
    intro h
    by_cases hc : p c
    · rw [List.dropWhile_cons, if_pos hc] at h ⊢
      have ht : t ≠ [] := by
        intro h0
        rw [h0] at h
        simp at h
      rw [ih h]
      cases t with
      | nil => exact absurd rfl ht
      | cons b t2 => rw [List.getLast?_cons_cons]
    · rw [List.dropWhile_cons, if_neg hc]

theorem getLast?_stripChars_ne (p : Char → Bool) (l : List Char) (a : Char)
    (h : (stripChars p l).getLast? = some a) : p a = false := by
  unfold stripChars at h
  rw [List.getLast?_reverse] at h
  exact head?_dropWhile_ne p _ a h

theorem head?_stripChars_ne (p : Char → Bool) (l : List Char) (a : Char)
    (h : (stripChars p l).head? = some a) : p a = false := by
  unfold stripChars at h
  rw [List.head?_reverse] at h
  have hne : List.dropWhile p (l.dropWhile p).reverse ≠ [] := by
    intro h0
    rw [h0] at h
    simp at h
  rw [getLast?_dropWhile p _ hne, List.getLast?_reverse] at h
  exact head?_dropWhile_ne p _ a h

theorem all_of_all_dropWhile (p : Char → Bool) :
    ∀ l : List Char, (∀ c ∈ l.dropWhile p, p c = true) → ∀ c ∈ l, p c = true := by
  intro l
  induction l with
  | nil => intro _ c hc; simp at hc
  | cons c t ih =>
    intro h x hx
    by_cases hc : p c
    · rw [List.dropWhile_cons, if_pos hc] at h
      rcases List.mem_cons.mp hx with h1 | h1
      · rw [h1]; exact hc
      · exact ih h x h1
    · rw [List.dropWhile_cons, if_neg hc] at h
      exact h x hx

theorem stripChars_eq_nil_iff (p : Char → Bool) (l : List Char) :
    stripChars p l = [] ↔ ∀ c ∈ l, p c = true := by
  unfold stripChars
  simp only [List.reverse_eq_nil_iff, List.dropWhile_eq_nil_iff, List.mem_reverse]
  constructor
  · intro h
    exact all_of_all_dropWhile p l (fun c hc => h c hc)
  · intro h c hc
    exact h c ((List.dropWhile_sublist p).subset hc)

theorem pyStrip_eq_nil_iff (l : List Char) :
    pyStrip l = [] ↔ l.all isPyWhitespace = true := by
  rw [pyStrip, stripChars_eq_nil_iff, List.all_eq_true]

/-! ## Lemmas about newline-run collapsing -/

theorem nlLen_le_two (k : Nat) : nlLen k ≤ 2 := by
  unfold nlLen
  split <;> omega

theorem collapseAux_cons_nl (k : Nat) (rest : List Char) :
    collapseAux k ('\n' :: rest) = collapseAux (k + 1) rest := by
  simp [collapseAux]

theorem collapseAux_cons_ne (k : Nat) (c : Char) (rest : List Char) (hc : ¬ c = '\n') :
    collapseAux k (c :: rest) = nlOut k ++ c :: collapseAux 0 rest := by
  simp [collapseAux, hc]

theorem hasRun3Aux_cons_nl (k : Nat) (rest : List Char) :
    hasRun3Aux k ('\n' :: rest) = hasRun3Aux (k + 1) rest := by
  simp [hasRun3Aux]

theorem hasRun3Aux_cons_ne (k : Nat) (c : Char) (rest : List Char) (hc : ¬ c = '\n') :
    hasRun3Aux k (c :: rest) = (decide (3 ≤ k) || hasRun3Aux 0 rest) := by
  simp [hasRun3Aux, hc]

theorem hasRun3Aux_replicate_append (m : Nat) (rest : List Char) :
    ∀ j, hasRun3Aux j (List.replicate m '\n' ++ rest) = hasRun3Aux (j + m) rest := by
  induction m with
  | zero => intro j; simp
  | succ m ih =>
    intro j
    rw [List.replicate_succ, List.cons_append, hasRun3Aux_cons_nl, ih (j + 1)]
    congr 1
    omega

theorem hasRun3Aux_of_three (l : List Char) :
    ∀ j, 3 ≤ j → hasRun3Aux j l = true := by
  induction l with
  | nil =>
    intro j hj
    simp [hasRun3Aux]
    omega
  | cons c rest ih =>
    intro j hj
    by_cases hc : c = '\n'
    · subst hc
      rw [hasRun3Aux_cons_nl]
      exact ih (j + 1) (by omega)
    · rw [hasRun3Aux_cons_ne _ _ _ hc]
      simp
      left
      omega

theorem le_two_of_hasRun3Aux_false (l : List Char) (j : Nat)
    (h : hasRun3Aux j l = false) : j ≤ 2 := by
  by_contra h3
  rw [hasRun3Aux_of_three l j (by omega)] at h
  simp at h

theorem hasRun3Aux_collapseAux (l : List Char) :
    ∀ k, hasRun3Aux 0 (collapseAux k l) = false := by
  induction l with
  | nil =>
    intro k
    show hasRun3Aux 0 (nlOut k) = false
    rw [nlOut, ← List.append_nil (List.replicate (nlLen k) '\n'),
      hasRun3Aux_replicate_append]
    have h2 := nlLen_le_two k
    simp [hasRun3Aux]
    omega
  | cons c rest ih =>
    intro k
    by_cases hc : c = '\n'
    · subst hc
      rw [collapseAux_cons_nl]
      exact ih (k + 1)
    · rw [collapseAux_cons_ne _ _ _ hc, nlOut, hasRun3Aux_replicate_append,
        hasRun3Aux_cons_ne _ _ _ hc]
      have h2 := nlLen_le_two k
      simp [ih 0]
      omega

theorem collapseAux_eq_of_no_run (l : List Char) :
    ∀ k, k ≤ 2 → hasRun3Aux k l = false →
      collapseAux k l = List.replicate k '\n' ++ l := by
  induction l with
  | nil =>
    intro k hk _
    show nlOut k = _
    rw [nlOut, nlLen, if_neg (by omega)]
    simp
  | cons c rest ih =>
    intro k hk h
    by_cases hc : c = '\n'
    · subst hc
      rw [hasRun3Aux_cons_nl] at h
      have hk1 : k + 1 ≤ 2 := le_two_of_hasRun3Aux_false rest (k + 1) h
      rw [collapseAux_cons_nl, ih (k + 1) hk1 h, List.replicate_succ']
      simp
    · rw [hasRun3Aux_cons_ne _ _ _ hc] at h
      simp only [Bool.or_eq_false_iff] at h
      rw [collapseAux_cons_ne _ _ _ hc, ih 0 (by omega) h.2, nlOut, nlLen,
        if_neg (by omega)]
      simp

theorem collapseNewlines_collapseNewlines (l : List Char) :
    collapseNewlines (collapseNewlines l) = collapseNewlines l := by
  unfold collapseNewlines
  have h := hasRun3Aux_collapseAux l 0
  have h2 := collapseAux_eq_of_no_run (collapseAux 0 l) 0 (by omega) h
  simpa using h2

theorem hasRun3Aux_collapseAux_append_nl (l : List Char) :
    ∀ k, (l = [] → k = 0) → l.getLast? ≠ some '\n' →
      hasRun3Aux 0 (collapseAux k l ++ ['\n']) = false := by
  induction l with
  | nil =>
    intro k hk _
    rw [hk rfl]
    decide
  | cons c rest ih =>
    intro k hk hlast
    by_cases hc : c = '\n'
    · subst hc
      have hrest : rest ≠ [] := by
        intro h0
        subst h0
        simp at hlast
      rw [collapseAux_cons_nl]
      apply ih (k + 1) (fun h0 => absurd h0 hrest)
      cases rest with
      | nil => exact absurd rfl hrest
      | cons b t =>
        rw [List.getLast?_cons_cons] at hlast
        exact hlast
    · have hr : rest.getLast? ≠ some '\n' := by
        cases rest with
        | nil => simp
        | cons b t =>
          rw [List.getLast?_cons_cons] at hlast
          exact hlast
      have htail := ih 0 (fun _ => rfl) hr
      rw [collapseAux_cons_ne _ _ _ hc, nlOut, List.append_assoc,
        hasRun3Aux_replicate_append, List.cons_append, hasRun3Aux_cons_ne _ _ _ hc]
      have h2 := nlLen_le_two k
      simp [htail]
      omega

theorem getLast?_collapseAux (l : List Char) :
    ∀ (k : Nat) (c : Char), ¬ c = '\n' → l.getLast? = some c →
      (collapseAux k l).getLast? = some c := by
  induction l with
  | nil =>
    intro k c _ h
    simp at h
  | cons a rest ih =>
    intro k c hc hl
    by_cases ha : a = '\n'
    · subst ha
      have hrest : rest ≠ [] := by
        intro h0
        subst h0
        simp at hl
        subst hl
        exact hc rfl
      rw [collapseAux_cons_nl]
      apply ih (k + 1) c hc
      cases rest with
      | nil => exact absurd rfl hrest
      | cons b t =>
        rw [List.getLast?_cons_cons] at hl
        exact hl
    · rw [collapseAux_cons_ne _ _ _ ha]
      cases rest with
      | nil =>
        simp at hl
        subst hl
        show (nlOut k ++ [a] ).getLast? = some a
        rw [List.getLast?_append]
        simp
      | cons b t =>
        rw [List.getLast?_cons_cons] at hl
        have h1 := ih 0 c hc hl
        have hcons : (a :: collapseAux 0 (b :: t)).getLast? = some c := by
          cases hcol : collapseAux 0 (b :: t) with
          | nil =>
            rw [hcol] at h1
            simp at h1
          | cons x xs =>
            rw [hcol] at h1
            rw [List.getLast?_cons_cons]
            exact h1
        rw [List.getLast?_append, hcons]
        rfl

theorem collapseNewlines_cons_ne (c : Char) (l : List Char) (hc : ¬ c = '\n') :
    collapseNewlines (c :: l) = c :: collapseNewlines l := by
  unfold collapseNewlines
  rw [collapseAux_cons_ne _ _ _ hc]
  simp [nlOut, nlLen]

theorem hasRun3Aux_mono (l : List Char) :
    ∀ i j, i ≤ j → hasRun3Aux i l = true → hasRun3Aux j l = true := by
  induction l with
  | nil =>
    intro i j hij h
    simp [hasRun3Aux] at h ⊢
    omega
  | cons c rest ih =>
    intro i j hij h
    by_cases hc : c = '\n'
    · subst hc
      rw [hasRun3Aux_cons_nl] at h ⊢
      exact ih (i + 1) (j + 1) (by omega) h
    · rw [hasRun3Aux_cons_ne _ _ _ hc] at h ⊢
      simp at h ⊢
      rcases h with h | h
      · left
        omega
      · right
        exact h

theorem hasRun3_of_decomp :
    ∀ (s t l : List Char), s ++ '\n' :: '\n' :: '\n' :: t = l → hasRun3 l = true := by
  intro s
  induction s with
  | nil =>
    intro t l h
    subst h
    show hasRun3Aux 0 _ = true
    rw [List.nil_append, hasRun3Aux_cons_nl, hasRun3Aux_cons_nl, hasRun3Aux_cons_nl]
    exact hasRun3Aux_of_three t 3 (by omega)
  | cons a s2 ih =>
    intro t l h
    subst h
    have hrest : hasRun3Aux 0 (s2 ++ '\n' :: '\n' :: '\n' :: t) = true :=
      ih t _ rfl
    show hasRun3Aux 0 _ = true
    rw [List.cons_append]
    by_cases ha : a = '\n'
    · subst ha
      rw [hasRun3Aux_cons_nl]
      exact hasRun3Aux_mono _ 0 1 (by omega) hrest
    · rw [hasRun3Aux_cons_ne _ _ _ ha]
      simp [hrest]

theorem not_decomp_of_hasRun3_false (l : List Char) (h : hasRun3 l = false) :
    ¬ ∃ s t, s ++ '\n' :: '\n' :: '\n' :: t = l := by
  rintro ⟨s, t, hst⟩
  rw [hasRun3_of_decomp s t l hst] at h
  simp at h

/-! ## The fallback transform: characterisation and idempotence -/

/-- `l` ends with exactly one trailing newline: it is some `m ++ "\n"`
where `m` does not itself end in a newline. -/
def endsWithOneNL (l : List Char) : Prop :=
  ∃ m, l = m ++ ['\n'] ∧ m.getLast? ≠ some '\n'

theorem stripChars_append_sat (p : Char → Bool) (m : List Char) (c : Char)
    (hc : p c = true) (hhead : ∀ b, m.head? = some b → p b = false)
    (hlast : ∀ a, m.getLast? = some a → p a = false) :
    stripChars p (m ++ [c]) = m := by
  cases m with
  | nil =>
    simp [stripChars, List.dropWhile, hc]
  | cons b tail =>
    have hb : p b = false := hhead b rfl
    unfold stripChars
    rw [List.cons_append, List.dropWhile_cons, if_neg (by simp [hb])]
    rw [show b :: (tail ++ [c]) = (b :: tail) ++ [c] by simp]
    rw [List.reverse_append]
    simp only [List.reverse_singleton, List.singleton_append]
    rw [List.dropWhile_cons, if_pos (by simp [hc])]
    cases hrevl : (b :: tail).reverse with
    | nil => simp at hrevl
    | cons x xs =>
      have hx : (b :: tail).getLast? = some x := by
        rw [← List.head?_reverse, hrevl]
        rfl
      have hpx : p x = false := hlast x hx
      rw [List.dropWhile_cons, if_neg (by simp [hpx])]
      rw [← hrevl, List.reverse_reverse]

/-- **C4.** For every input string `x`, `fallback_markdown x` returns
the empty string when `x` is empty or whitespace-only; otherwise it
returns `x` trimmed of surrounding whitespace with every run of 3 or
more consecutive newlines collapsed to exactly 2, ending with exactly
one trailing newline and containing no run of 3 or more consecutive
newlines. -/
theorem fallback_markdown_spec (x : List Char) :
    (x.all isPyWhitespace = true → fallback_markdown x = []) ∧
    (x.all isPyWhitespace = false →
      fallback_markdown x = collapseNewlines (pyStrip x) ++ ['\n'] ∧
      endsWithOneNL (fallback_markdown x) ∧
      ¬ ∃ s t, s ++ '\n' :: '\n' :: '\n' :: t = fallback_markdown x) := by
  constructor
  · intro h
    have h0 : pyStrip x = [] := (pyStrip_eq_nil_iff x).mpr h
    simp [fallback_markdown, h0]
  · intro h
    have hs : pyStrip x ≠ [] := by
      intro h0
      rw [(pyStrip_eq_nil_iff x).mp h0] at h
      simp at h
    have heq : fallback_markdown x = collapseNewlines (pyStrip x) ++ ['\n'] := by
      simp [fallback_markdown, hs]
    obtain ⟨a, ha⟩ := Option.isSome_iff_exists.mp (List.getLast?_isSome.mpr hs)
    have hwa : isPyWhitespace a = false := getLast?_stripChars_ne _ x a ha
    have han : ¬ a = '\n' := by
      intro h0
      subst h0
      simp [isPyWhitespace] at hwa
    have hmlast : (collapseNewlines (pyStrip x)).getLast? = some a :=
      getLast?_collapseAux (pyStrip x) 0 a han ha
    refine ⟨heq, ⟨collapseNewlines (pyStrip x), heq, ?_⟩, ?_⟩
    · rw [hmlast]
      intro h0
      exact han (Option.some.inj h0)
    · rw [heq]
      apply not_decomp_of_hasRun3_false
      exact hasRun3Aux_collapseAux_append_nl (pyStrip x) 0 (fun _ => rfl)
        (by rw [ha]; intro h0; exact han (Option.some.inj h0))

theorem fallback_markdown_spec_witness :
    (fallback_markdown (str " \n\t ") = []) ∧
    (fallback_markdown (str "  a\n\n\n\nb ")
        = collapseNewlines (pyStrip (str "  a\n\n\n\nb ")) ++ ['\n'] ∧
      endsWithOneNL (fallback_markdown (str "  a\n\n\n\nb ")) ∧
      ¬ ∃ s t, s ++ '\n' :: '\n' :: '\n' :: t
          = fallback_markdown (str "  a\n\n\n\nb ")) :=
  ⟨(fallback_markdown_spec (str " \n\t ")).1 (by decide),
   (fallback_markdown_spec (str "  a\n\n\n\nb ")).2 (by decide)⟩

/-- **C5.** The fallback text transform is idempotent. -/
theorem fallback_markdown_idem (x : List Char) :
    fallback_markdown (fallback_markdown x) = fallback_markdown x := by
  by_cases h : pyStrip x = []
  · have h1 : fallback_markdown x = [] := by simp [fallback_markdown, h]
    rw [h1]
    decide
  · obtain ⟨a, ha⟩ := Option.isSome_iff_exists.mp (List.getLast?_isSome.mpr h)
    have hwa : isPyWhitespace a = false := getLast?_stripChars_ne _ x a ha
    have han : ¬ a = '\n' := by
      intro h0
      subst h0
      simp [isPyWhitespace] at hwa
    have hmlast : (collapseNewlines (pyStrip x)).getLast? = some a :=
      getLast?_collapseAux (pyStrip x) 0 a han ha
    have hmne : collapseNewlines (pyStrip x) ≠ [] := by
      intro h0
      rw [h0] at hmlast
      simp at hmlast
    have hmhead : ∀ b, (collapseNewlines (pyStrip x)).head? = some b →
        isPyWhitespace b = false := by
      intro b hb
      cases hx : pyStrip x with
      | nil => exact absurd hx h
      | cons b0 t =>
        have hb0 : (pyStrip x).head? = some b0 := by rw [hx]; rfl
        have hwb0 : isPyWhitespace b0 = false := head?_stripChars_ne _ x b0 hb0
        have hb0n : ¬ b0 = '\n' := by
          intro h0
          subst h0
          simp [isPyWhitespace] at hwb0
        rw [hx, collapseNewlines_cons_ne b0 t hb0n] at hb
        simp at hb
        rw [← hb]
        exact hwb0
    have hstrip : pyStrip (collapseNewlines (pyStrip x) ++ ['\n'])
        = collapseNewlines (pyStrip x) := by
      apply stripChars_append_sat
      · decide
      · exact hmhead
      · intro a0 ha0
        rw [hmlast] at ha0
        rw [← Option.some.inj ha0]
        exact hwa
    have hfx : fallback_markdown x = collapseNewlines (pyStrip x) ++ ['\n'] := by
      simp [fallback_markdown, h]
    rw [hfx]
    show fallback_markdown (collapseNewlines (pyStrip x) ++ ['\n']) = _
    simp only [fallback_markdown, hstrip, if_neg hmne]
    rw [collapseNewlines_collapseNewlines]

/-! ## The credential gate -/

theorem gate_fallback (env : Env) (elapsed : ℚ)
    (prev_text : Option (List Char)) (prev_image : Option String)
    (curr_text : List Char) (curr_image : String)
    (next_text : Option (List Char)) (next_image : Option String)
    (prev_markdown : Option (List Char))
    (hcred : credentialsPresent env = false)
    (hfb : allowFallback env = true) :
    convert_to_markdown env elapsed prev_text prev_image curr_text curr_image
        next_text next_image prev_markdown
      = .fallbackReturn (fallback_markdown curr_text)
          { model := resolveModelName env, input_tokens := none, output_tokens := none,
            total_tokens := none, duration_s := elapsed, fallback := true } := by
  rw [credentialsPresent] at hcred
  by_cases haz : truthy (getenv env "AZURE_OPENAI_ENDPOINT") = true
  · rw [if_pos haz] at hcred
    simp [convert_to_markdown, haz, hcred, hfb]
  · have haz2 : truthy (getenv env "AZURE_OPENAI_ENDPOINT") = false :=
      Bool.eq_false_iff.mpr haz
    rw [if_neg haz] at hcred
    simp [convert_to_markdown, haz2, hcred, hfb]

theorem gate_raise (env : Env) (elapsed : ℚ)
    (prev_text : Option (List Char)) (prev_image : Option String)
    (curr_text : List Char) (curr_image : String)
    (next_text : Option (List Char)) (next_image : Option String)
    (prev_markdown : Option (List Char))
    (hcred : credentialsPresent env = false)
    (hfb : allowFallback env = false) :
    ∃ msg, convert_to_markdown env elapsed prev_text prev_image curr_text curr_image
        next_text next_image prev_markdown = .raiseRuntimeError msg := by
  rw [credentialsPresent] at hcred
  by_cases haz : truthy (getenv env "AZURE_OPENAI_ENDPOINT") = true
  · refine ⟨"AZURE_OPENAI_API_KEY must be set when using Azure OpenAI.", ?_⟩
    rw [if_pos haz] at hcred
    simp [convert_to_markdown, haz, hcred, hfb]
  · refine ⟨"OPENAI_API_KEY must be set for OpenAI access.", ?_⟩
    have haz2 : truthy (getenv env "AZURE_OPENAI_ENDPOINT") = false :=
      Bool.eq_false_iff.mpr haz
    rw [if_neg haz] at hcred
    simp [convert_to_markdown, haz2, hcred, hfb]

theorem allowFallback_eq_false_iff (env : Env) :
    allowFallback env = false ↔ getenv env "PDFMDER_ALLOW_FALLBACK" = some "0" := by
  unfold allowFallback getenvD
  cases hv : getenv env "PDFMDER_ALLOW_FALLBACK" with
  | none => simp
  | some v => simp

/-- **C2.** When provider credentials are absent from the environment
and fallback is enabled, `convert_to_markdown` never raises: it returns
`fallback_markdown(curr_text)` together with metrics whose fallback
flag is true and whose token fields are all absent, without making any
network call (the outcome is a `fallbackReturn`, not a `networkCall`). -/
theorem convert_fallback_no_creds (env : Env) (elapsed : ℚ)
    (prev_text : Option (List Char)) (prev_image : Option String)
    (curr_text : List Char) (curr_image : String)
    (next_text : Option (List Char)) (next_image : Option String)
    (prev_markdown : Option (List Char))
    (hcred : credentialsPresent env = false)
    (hfb : allowFallback env = true) :
    convert_to_markdown env elapsed prev_text prev_image curr_text curr_image
        next_text next_image prev_markdown
      = .fallbackReturn (fallback_markdown curr_text)
          { model := resolveModelName env, input_tokens := none, output_tokens := none,
            total_tokens := none, duration_s := elapsed, fallback := true } :=
  gate_fallback env elapsed prev_text prev_image curr_text curr_image
    next_text next_image prev_markdown hcred hfb

theorem convert_fallback_no_creds_witness :
    credentialsPresent [] = false ∧ allowFallback [] = true ∧
    convert_to_markdown [] 1 none none (str "hello") "p.png" none none none
      = .fallbackReturn (str "hello\n")
          { model := "gpt-5", input_tokens := none, output_tokens := none,
            total_tokens := none, duration_s := 1, fallback := true } :=
  ⟨by decide, by decide, by
    rw [convert_fallback_no_creds [] 1 none none (str "hello") "p.png" none none none
      (by decide) (by decide)]
    decide⟩

/-- **C3.** When provider credentials are absent from the environment
and fallback is disabled, `convert_to_markdown` fails before any
network call is attempted: the outcome is a raised error (the code's
`RuntimeError` at the credential check, which the spec taxonomy names
`ConfigurationError`), never a `networkCall`. -/
theorem convert_raises_no_creds (env : Env) (elapsed : ℚ)
    (prev_text : Option (List Char)) (prev_image : Option String)
    (curr_text : List Char) (curr_image : String)
    (next_text : Option (List Char)) (next_image : Option String)
    (prev_markdown : Option (List Char))
    (hcred : credentialsPresent env = false)
    (hfb : allowFallback env = false) :
    ∃ msg, convert_to_markdown env elapsed prev_text prev_image curr_text curr_image
        next_text next_image prev_markdown = .raiseRuntimeError msg :=
  gate_raise env elapsed prev_text prev_image curr_text curr_image
    next_text next_image prev_markdown hcred hfb

theorem convert_raises_no_creds_witness :
    credentialsPresent [("PDFMDER_ALLOW_FALLBACK", "0")] = false ∧
    allowFallback [("PDFMDER_ALLOW_FALLBACK", "0")] = false ∧
    ∃ msg, convert_to_markdown [("PDFMDER_ALLOW_FALLBACK", "0")] 1 none none
        (str "hello") "p.png" none none none = .raiseRuntimeError msg :=
  ⟨by decide, by decide,
    convert_raises_no_creds [("PDFMDER_ALLOW_FALLBACK", "0")] 1 none none
      (str "hello") "p.png" none none none (by decide) (by decide)⟩

/-- **C10.** When provider credentials are absent from the environment,
`convert_to_markdown` raises if and only if `PDFMDER_ALLOW_FALLBACK` is
set to exactly the string `"0"`; any other value (including `"false"`,
`"no"`, the empty string) and the unset default leave fallback enabled,
so conversion returns the fallback result instead of raising. -/
theorem convert_raises_iff_flag_zero (env : Env) (elapsed : ℚ)
    (prev_text : Option (List Char)) (prev_image : Option String)
    (curr_text : List Char) (curr_image : String)
    (next_text : Option (List Char)) (next_image : Option String)
    (prev_markdown : Option (List Char))
    (hcred : credentialsPresent env = false) :
    (∃ msg, convert_to_markdown env elapsed prev_text prev_image curr_text curr_image
        next_text next_image prev_markdown = .raiseRuntimeError msg)
      ↔ getenv env "PDFMDER_ALLOW_FALLBACK" = some "0" := by
  rcases Bool.eq_false_or_eq_true (allowFallback env) with hfb | hfb
  · constructor
    · rintro ⟨msg, hmsg⟩
      rw [gate_fallback env elapsed prev_text prev_image curr_text curr_image
        next_text next_image prev_markdown hcred hfb] at hmsg
      cases hmsg
    · intro h0
      rw [← allowFallback_eq_false_iff] at h0
      rw [hfb] at h0
      cases h0
  · rw [← allowFallback_eq_false_iff]
    constructor
    · intro _
      exact hfb
    · intro _
      exact gate_raise env elapsed prev_text prev_image curr_text curr_image
        next_text next_image prev_markdown hcred hfb

theorem convert_raises_iff_flag_zero_witness :
    credentialsPresent [("PDFMDER_ALLOW_FALLBACK", "false")] = false ∧
    ¬ (∃ msg, convert_to_markdown [("PDFMDER_ALLOW_FALLBACK", "false")] 1 none none
        (str "hello") "p.png" none none none = .raiseRuntimeError msg) := by
  refine ⟨by decide, ?_⟩
  rw [convert_raises_iff_flag_zero [("PDFMDER_ALLOW_FALLBACK", "false")] 1 none none
    (str "hello") "p.png" none none none (by decide)]
  decide

/-! ## Pipeline loop lemmas -/

theorem pipelineAux_length (conv : ConvertArgs → List Char × PageMetrics)
    (ips : List String) (pts : List (List Char)) (n : Nat) :
    ∀ (fuel i : Nat) (prev : Option (List Char)),
      (pipelineAux conv ips pts n fuel i prev).1.length = fuel ∧
      (pipelineAux conv ips pts n fuel i prev).2.length = fuel := by
  intro fuel
  induction fuel with
  | zero =>
    intro i prev
    simp [pipelineAux]
  | succ f ih =>
    intro i prev
    simp only [pipelineAux, List.length_cons]
    exact ⟨by rw [(ih _ _).1], by rw [(ih _ _).2]⟩

theorem pipelineAux_get (conv : ConvertArgs → List Char × PageMetrics)
    (ips : List String) (pts : List (List Char)) (n : Nat) :
    ∀ (fuel i : Nat) (prev : Option (List Char)) (j : Nat), j < fuel →
      (pipelineAux conv ips pts n fuel i prev).1.getD j []
          = (conv (mkArgs ips pts n (i + j)
              (if j = 0 then prev
               else some ((pipelineAux conv ips pts n fuel i prev).1.getD (j - 1) [])))).1
        ∧ (pipelineAux conv ips pts n fuel i prev).2.getD j default
          = (conv (mkArgs ips pts n (i + j)
              (if j = 0 then prev
               else some ((pipelineAux conv ips pts n fuel i prev).1.getD (j - 1) [])))).2 := by
  intro fuel
  induction fuel with
  | zero =>
    intro i prev j hj
    omega
  | succ f ih =>
    intro i prev j hj
    cases j with
    | zero =>
      simp [pipelineAux]
    | succ j2 =>
      have hj2 : j2 < f := by omega
      have hstep := ih (i + 1) (some (conv (mkArgs ips pts n i prev)).1) j2 hj2
      simp only [pipelineAux, List.getD_cons_succ]
      have harg : i + 1 + j2 = i + (j2 + 1) := by omega
      rw [harg] at hstep
      cases j2 with
      | zero =>
        simpa using hstep
      | succ j3 =>
        simpa using hstep

/-- **C9.** For every document with `page_count = n`, the metrics
sequence returned by `convert_pdf_to_markdown` has length exactly `n`,
and its `i`-th entry is the metrics component returned by the page
converter for page `i` (the same invocation that produced the `i`-th
Markdown page). -/
theorem metrics_length_eq_page_count (conv : ConvertArgs → List Char × PageMetrics)
    (ips : List String) (pts : List (List Char)) (n : Nat) :
    (convert_pdf_to_markdown conv ips pts n).2.length = n ∧
    ∀ i, i < n →
      (convert_pdf_to_markdown conv ips pts n).2.getD i default
        = (conv (mkArgs ips pts n i
            (if i = 0 then none
             else some ((pipelineAux conv ips pts n n 0 none).1.getD (i - 1) [])))).2 := by
  constructor
  · show (pipelineAux conv ips pts n n 0 none).2.length = n
    exact (pipelineAux_length conv ips pts n n 0 none).2
  · intro i hi
    have h := (pipelineAux_get conv ips pts n n 0 none i hi).2
    rw [Nat.zero_add] at h
    exact h

theorem metrics_length_eq_page_count_witness :
    (convert_pdf_to_markdown (fallbackConv [] 0)
        ["t/page-0001.png", "t/page-0002.png"] [str "a", str "b"] 2).2.length = 2 ∧
    (convert_pdf_to_markdown (fallbackConv [] 0)
        ["t/page-0001.png", "t/page-0002.png"] [str "a", str "b"] 2).2.getD 1 default
      = (fallbackConv [] 0 (mkArgs ["t/page-0001.png", "t/page-0002.png"]
          [str "a", str "b"] 2 1
          (some ((pipelineAux (fallbackConv [] 0) ["t/page-0001.png", "t/page-0002.png"]
            [str "a", str "b"] 2 2 0 none).1.getD 0 [])))).2 := by
  refine ⟨(metrics_length_eq_page_count (fallbackConv [] 0)
    ["t/page-0001.png", "t/page-0002.png"] [str "a", str "b"] 2).1, ?_⟩
  have h := (metrics_length_eq_page_count (fallbackConv [] 0)
    ["t/page-0001.png", "t/page-0002.png"] [str "a", str "b"] 2).2 1 (by decide)
  simpa using h

/-- **C7.** For every document with `page_count = n` and every page
index `i < n`, the pipeline invokes the page converter with
`prev_text`/`prev_image` taken from page `i - 1` when `i > 0` and
absent when `i = 0`, `next_text`/`next_image` taken from page `i + 1`
when `i + 1 < n` and absent for the last page, and `prev_markdown`
equal to the Markdown the converter returned for page `i - 1` (absent
for `i = 0`).  Page `i`'s output is the converter applied to a window
containing page `i - 1`'s output, so processing is strictly sequential
in increasing index order (the loop recursion processes `i` then
`i + 1`). -/
theorem pipeline_window (conv : ConvertArgs → List Char × PageMetrics)
    (ips : List String) (pts : List (List Char)) (n i : Nat) (hi : i < n) :
    ∃ a : ConvertArgs,
      a = { prev_text := if 0 < i then some (pts.getD (i - 1) []) else none,
            prev_image := if 0 < i then some (ips.getD (i - 1) "") else none,
            curr_text := pts.getD i [],
            curr_image := ips.getD i "",
            next_text := if i + 1 < n then some (pts.getD (i + 1) []) else none,
            next_image := if i + 1 < n then some (ips.getD (i + 1) "") else none,
            prev_markdown := if 0 < i then
              some ((pipelineAux conv ips pts n n 0 none).1.getD (i - 1) []) else none } ∧
      (pipelineAux conv ips pts n n 0 none).1.getD i [] = (conv a).1 ∧
      (pipelineAux conv ips pts n n 0 none).2.getD i default = (conv a).2 := by
  obtain ⟨h1, h2⟩ := pipelineAux_get conv ips pts n n 0 none i hi
  rw [Nat.zero_add] at h1 h2
  refine ⟨_, ?_, h1, h2⟩
  unfold mkArgs
  rcases Nat.eq_zero_or_pos i with h0 | h0
  · subst h0
    simp
  · have hne : ¬ i = 0 := by omega
    simp [h0, hne]

theorem pipeline_window_witness :
    ∃ a : ConvertArgs,
      a = { prev_text := some (str "a"),
            prev_image := some "t/page-0001.png",
            curr_text := str "b",
            curr_image := "t/page-0002.png",
            next_text := none,
            next_image := none,
            prev_markdown := some ((pipelineAux (fallbackConv [] 0)
              ["t/page-0001.png", "t/page-0002.png"] [str "a", str "b"]
              2 2 0 none).1.getD 0 []) } ∧
      (pipelineAux (fallbackConv [] 0) ["t/page-0001.png", "t/page-0002.png"]
          [str "a", str "b"] 2 2 0 none).1.getD 1 [] = (fallbackConv [] 0 a).1 ∧
      (pipelineAux (fallbackConv [] 0) ["t/page-0001.png", "t/page-0002.png"]
          [str "a", str "b"] 2 2 0 none).2.getD 1 default = (fallbackConv [] 0 a).2 := by
  have h := pipeline_window (fallbackConv [] 0)
    ["t/page-0001.png", "t/page-0002.png"] [str "a", str "b"] 2 1 (by decide)
  simpa using h

/-! ## The joined document Markdown -/

theorem pyStrip_getLast?_ne_nl (l : List Char) : (pyStrip l).getLast? ≠ some '\n' := by
  intro h
  have h2 := getLast?_stripChars_ne isPyWhitespace l '\n' h
  simp [isPyWhitespace] at h2

/-- **C6 (counterexample).** The claim "the markdown string returned by
`convert_pdf_to_markdown` equals the per-page Markdown strings joined
with the separator, then trimmed, then terminated with one trailing
newline" fails on the code: for a two-page document converted in the
fallback regime the pages are `"a\n"` and `"b\n"`, the code first
strips each page's newlines (`p.strip("\n")`) and produces
`"a\n\n---\n\nb\n"`, while joining the raw page strings and trimming
would produce `"a\n\n\n---\n\nb\n"`. -/
theorem joined_markdown_claim_counterexample :
    (convert_pdf_to_markdown (fallbackConv [] 0) ["t/page-0001.png", "t/page-0002.png"]
        [str "a", str "b"] 2).1
      ≠ pyStrip (List.intercalate pageSep
          (pipelineAux (fallbackConv [] 0) ["t/page-0001.png", "t/page-0002.png"]
            [str "a", str "b"] 2 2 0 none).1) ++ ['\n'] := by
  decide

/-- **C6 (amended).** The markdown string returned by
`convert_pdf_to_markdown` equals the per-page Markdown strings *each
first stripped of leading and trailing newline characters*, joined
with the literal separator `"\n\n---\n\n"`, then trimmed, then
terminated with exactly one trailing newline; in particular the result
always ends with exactly one trailing newline. -/
theorem joined_markdown_shape (conv : ConvertArgs → List Char × PageMetrics)
    (ips : List String) (pts : List (List Char)) (n : Nat) :
    (convert_pdf_to_markdown conv ips pts n).1
      = pyStrip (List.intercalate pageSep
          ((pipelineAux conv ips pts n n 0 none).1.map stripNL)) ++ ['\n']
    ∧ endsWithOneNL (convert_pdf_to_markdown conv ips pts n).1 :=
  ⟨rfl,
   ⟨pyStrip (List.intercalate pageSep
      ((pipelineAux conv ips pts n n 0 none).1.map stripNL)), rfl,
    pyStrip_getLast?_ne_nl _⟩⟩

/-! ## Asset extraction: lengths and the scope -/

theorem extract_pdf_assets_eq (doc : PdfDocument) (tmp : String) :
    extract_pdf_assets doc tmp
      = some ((List.range doc.pages.length).map (fun i => pageImagePath tmp i "png"),
              (List.range doc.pages.length).map (fun i => (doc.pages.getD i default).text),
              doc.pages.length) := by
  unfold extract_pdf_assets render_pdf_pages_to_images_tmp
  simp

/-- **C8.** For every PDF document (any `page_count ≥ 0`), asset
extraction succeeds — its internal length assertions never fire — and
returns `image_paths` and `page_texts` with
`len(image_paths) = len(page_texts) = page_count`. -/
theorem extract_assets_lengths (doc : PdfDocument) (tmp : String) :
    ∃ ips pts, extract_pdf_assets doc tmp = some (ips, pts, doc.pages.length) ∧
      ips.length = doc.pages.length ∧ pts.length = doc.pages.length := by
  refine ⟨_, _, extract_pdf_assets_eq doc tmp, ?_, ?_⟩ <;> simp

/-- **C1.** (Scope semantics modelled from the spec: the context
manager `extract_pdf_assets_tmp` is referenced by `converter.py` but
absent from `src/`.)  For every document, every image path that
`mkArgs` can place in a converter call's context window — the current
page's image and, when present, the previous/next pages' images, for
every page index `i < page_count` and every `prev_markdown` value —
exists (is a member of the file-system state) throughout the
asset-extraction scope, and no temporary image path exists immediately
after the scope exits. -/
theorem assets_alive_during_conversion (doc : PdfDocument) (tmp : String)
    (fs0 : List String) (scope : AssetScope)
    (hscope : extract_pdf_assets_tmp doc tmp fs0 = some scope) :
    (∀ i, i < scope.page_count → ∀ pm,
      (mkArgs scope.image_paths scope.page_texts scope.page_count i pm).curr_image
          ∈ scope.fsInside
        ∧ (∀ p, (mkArgs scope.image_paths scope.page_texts scope.page_count i pm).prev_image
            = some p → p ∈ scope.fsInside)
        ∧ (∀ p, (mkArgs scope.image_paths scope.page_texts scope.page_count i pm).next_image
            = some p → p ∈ scope.fsInside))
    ∧ (∀ p, p ∈ scope.image_paths → ¬ p ∈ scope.fsAfter) := by
  rw [extract_pdf_assets_tmp, extract_pdf_assets_eq doc tmp] at hscope
  have hs := Option.some.inj hscope
  subst hs
  simp only
  have hmem : ∀ j, j < ((List.range doc.pages.length).map
      (fun i => pageImagePath tmp i "png")).length →
      ((List.range doc.pages.length).map (fun i => pageImagePath tmp i "png")).getD j ""
        ∈ fs0 ++ (List.range doc.pages.length).map (fun i => pageImagePath tmp i "png") := by
    intro j hj
    refine List.mem_append.mpr (Or.inr ?_)
    rw [List.getD_eq_getElem _ _ hj]
    exact List.getElem_mem hj
  have hlen : ((List.range doc.pages.length).map
      (fun i => pageImagePath tmp i "png")).length = doc.pages.length := by
    simp
  constructor
  · intro i hi pm
    refine ⟨?_, ?_, ?_⟩
    · show ((List.range doc.pages.length).map (fun i => pageImagePath tmp i "png")).getD i ""
        ∈ _
      exact hmem i (by omega)
    · intro p hp
      simp only [mkArgs] at hp
      by_cases h0 : 0 < i
      · rw [if_pos h0] at hp
        rw [← Option.some.inj hp]
        exact hmem (i - 1) (by omega)
      · rw [if_neg h0] at hp
        cases hp
    · intro p hp
      simp only [mkArgs] at hp
      by_cases h1 : i + 1 < doc.pages.length
      · rw [if_pos h1] at hp
        rw [← Option.some.inj hp]
        exact hmem (i + 1) (by omega)
      · rw [if_neg h1] at hp
        cases hp
  · intro p hp hafter
    simp only [List.mem_filter] at hafter
    have hc : ((List.range doc.pages.length).map
        (fun i => pageImagePath tmp i "png")).contains p = true :=
      List.elem_iff.mpr hp
    rw [hc] at hafter
    simp at hafter

theorem assets_alive_during_conversion_witness :
    (∀ i, i < (AssetScope.mk ["t/page-0001.png", "t/page-0002.png"]
        [str "a", str "b"] 2 ["t/page-0001.png", "t/page-0002.png"] []).page_count →
      ∀ pm,
      (mkArgs ["t/page-0001.png", "t/page-0002.png"] [str "a", str "b"] 2 i pm).curr_image
          ∈ ["t/page-0001.png", "t/page-0002.png"]
        ∧ (∀ p, (mkArgs ["t/page-0001.png", "t/page-0002.png"] [str "a", str "b"]
            2 i pm).prev_image = some p → p ∈ ["t/page-0001.png", "t/page-0002.png"])
        ∧ (∀ p, (mkArgs ["t/page-0001.png", "t/page-0002.png"] [str "a", str "b"]
            2 i pm).next_image = some p → p ∈ ["t/page-0001.png", "t/page-0002.png"]))
    ∧ (∀ p, p ∈ ["t/page-0001.png", "t/page-0002.png"] → ¬ p ∈ ([] : List String)) := by
  have h := assets_alive_during_conversion ⟨[⟨str "a"⟩, ⟨str "b"⟩]⟩ "t" []
    (AssetScope.mk ["t/page-0001.png", "t/page-0002.png"] [str "a", str "b"] 2
      ["t/page-0001.png", "t/page-0002.png"] []) (by decide)
  simpa using h

end Pdfmder
